import Mathlib

/-!
# Verification of the progressive streaming playback engine (music_tg)

Shallow embedding of the streaming playback core of the repository:

* `StreamingAudioDownloader` (src/src/utils/streamingDownload.ts, mtcute variant) as an
  event-driven state machine `DState`/`DEv`/`dstep`: chunk arrivals from the download loop,
  SourceBuffer `updateend` callbacks, download completion, the `finalizeStream` timer recheck
  and `cleanup()`.
* The gramjs variant's progress reporting (unnamed source file, `downloadInChunks`).
* Codec negotiation in `startStreaming` (lines 23-40 of streamingDownload.ts).
* The service-worker cross-context relay (`sw.js` plus the relay variant `startStreaming`).
* The Player's `playTrack` track-transition logic (src/src/components/Player.tsx) as a state
  machine `PState`/`PEv`/`pstep`.

Bytes are modelled as `Nat`, chunks as `List Nat`, percentages as `ℚ`.
-/

namespace MusicTg

/-! ## StreamingAudioDownloader (src/src/utils/streamingDownload.ts)

The class fields `sourceBuffer`, `chunks`, `isAppending`, `downloadComplete`, `isAborted`
are embedded directly.  The browser-owned facts we need are `MediaSource.readyState`
(`msReady`) and `SourceBuffer.updating` (`bufUpdating`).  Ghost fields record the chunks
issued to `appendBuffer` (`appended`), every successful `endOfStream` call (`eosLog`),
the values passed to the progress callback (`progressLog`), and the number of
`appendBuffer` calls issued while the buffer was still updating (`badCalls`). -/

/-- `MediaSource.readyState`: `closed` until the object URL is attached, `opened` after the
`sourceopen` event, `ended` after a successful `endOfStream`. -/
inductive MSReady where
  | closed
  | opened
  | ended
deriving DecidableEq, Repr

/-- Which call site issued a successful `endOfStream`: the `finalizeStream` path or the
`cleanup()` path. -/
inductive EOSMark where
  | finalized
  | abortEos
deriving DecidableEq, BEq, Repr

/-- State of one `StreamingAudioDownloader` session together with the browser-side facts
and ghost observation logs. -/
structure DState where
  msReady : MSReady
  /-- `sourceBuffer !== null` (set in `handleSourceOpen`). -/
  hasSB : Bool
  /-- `this.chunks`: FIFO queue of not-yet-appended chunks. -/
  chunks : List (List Nat)
  isAppending : Bool
  /-- `SourceBuffer.updating` (browser side). -/
  bufUpdating : Bool
  downloadComplete : Bool
  isAborted : Bool
  /-- `doc.fileSize || 0`. -/
  fileSize : Nat
  totalDownloaded : Nat
  /-- Ghost: chunks issued to `appendBuffer`, in issue order. -/
  appended : List (List Nat)
  /-- Ghost: successful `endOfStream` calls. -/
  eosLog : List EOSMark
  /-- Ghost: values passed to the `onProgress` callback. -/
  progressLog : List ℚ
  /-- Ghost: `appendBuffer` calls issued while the buffer was updating. -/
  badCalls : Nat
deriving DecidableEq, Repr

/-- `(totalDownloaded / fileSize) * 100` (streamingDownload.ts line 146). -/
def progressValue (total fs : Nat) : ℚ := ((total : ℚ) / (fs : ℚ)) * 100

/-- `processQueue` (streamingDownload.ts lines 165-185).  `inj` injects an
environment-caused synchronous `appendBuffer` failure (e.g. quota); `appendBuffer`
also throws when the buffer is updating or the MediaSource is no longer open.
The catch clause clears `isAppending`; the shifted chunk is dropped either way. -/
def processQueue (inj : Bool) (s : DState) : DState :=
  if s.isAppending = true ∨ s.hasSB = false ∨ s.chunks = [] ∨ s.isAborted = true then s
  else if s.bufUpdating = true then s
  else
    match s.chunks with
    | [] => s
    | c :: rest =>
      -- this.isAppending = true; this.sourceBuffer.appendBuffer(...)
      if s.bufUpdating = true then
        { s with chunks := rest, isAppending := false, badCalls := s.badCalls + 1 }
      else if inj = true ∨ s.msReady ≠ MSReady.opened then
        { s with chunks := rest, isAppending := false }
      else
        { s with chunks := rest, isAppending := true, bufUpdating := true,
                 appended := s.appended ++ [c] }

/-- `MediaSource.endOfStream()`: succeeds only while the source is open and no
source buffer is updating; otherwise it throws (each caller catches and ignores). -/
def tryEndOfStream (mark : EOSMark) (s : DState) : DState :=
  if s.msReady = MSReady.opened ∧ s.bufUpdating = false then
    { s with msReady := MSReady.ended, eosLog := s.eosLog ++ [mark] }
  else s

/-- `finalizeStream` (streamingDownload.ts lines 187-200).  The `setTimeout` retry in the
else-branch is modelled by later `finalizeCheck` events. -/
def finalizeStream (s : DState) : DState :=
  if s.downloadComplete = true ∧ s.chunks = [] ∧ s.isAppending = false then
    if s.msReady = MSReady.opened ∧ s.isAborted = false then
      tryEndOfStream EOSMark.finalized s
    else s
  else s

/-- `cleanup` (streamingDownload.ts lines 202-211). -/
def cleanupD (s : DState) : DState :=
  let s1 : DState := { s with isAborted := true }
  if s1.msReady = MSReady.opened then tryEndOfStream EOSMark.abortEos s1 else s1

/-- Environment events driving one session.  `arrive c inj` is one iteration of the
`for await` loop in `downloadInChunks` delivering chunk `c` (with `inj` injecting a
synchronous `appendBuffer` failure in the drain it triggers); `updateend inj` is the
SourceBuffer `updateend` callback; `downloadDone` is the loop finishing;
`finalizeCheck` is the 100 ms `finalizeStream` recheck; `cleanupEv` is `cleanup()`. -/
inductive DEv where
  | sourceOpen
  | arrive (c : List Nat) (inj : Bool)
  | updateend (inj : Bool)
  | downloadDone
  | finalizeCheck
  | cleanupEv
deriving DecidableEq, Repr

/-- One event-handler execution, translated from streamingDownload.ts. -/
def dstep (s : DState) : DEv → DState
  | DEv.sourceOpen =>
      -- handleSourceOpen: readyState just became open; addSourceBuffer succeeds.
      if s.msReady = MSReady.closed then
        { s with msReady := MSReady.opened, hasSB := true }
      else s
  | DEv.arrive c inj =>
      -- downloadInChunks loop body (lines 130-147)
      if s.isAborted = true then s            -- throw new Error('DOWNLOAD_ABORTED')
      else if c = [] then s                   -- if (!chunk || chunk.length === 0) continue
      else
        let s1 := processQueue inj { s with chunks := s.chunks ++ [c] }
        let s2 := { s1 with totalDownloaded := s1.totalDownloaded + c.length }
        if s2.fileSize > 0 then
          { s2 with progressLog :=
              s2.progressLog ++ [progressValue s2.totalDownloaded s2.fileSize] }
        else s2
  | DEv.updateend inj =>
      -- updateend listener (lines 80-83); the browser clears `updating` beforehand
      processQueue inj { s with isAppending := false, bufUpdating := false }
  | DEv.downloadDone =>
      -- lines 150-154
      if s.isAborted = true then s
      else finalizeStream { s with downloadComplete := true }
  | DEv.finalizeCheck => finalizeStream s
  | DEv.cleanupEv => cleanupD s

/-- A fresh session right after the constructor ran. -/
def dinit (fs : Nat) : DState :=
  { msReady := MSReady.closed, hasSB := false, chunks := [], isAppending := false,
    bufUpdating := false, downloadComplete := false, isAborted := false, fileSize := fs,
    totalDownloaded := 0, appended := [], eosLog := [], progressLog := [], badCalls := 0 }

/-- Run a list of events from a state. -/
def runFrom (s : DState) (evs : List DEv) : DState := evs.foldl dstep s

/-- Run a whole session from scratch. -/
def runD (fs : Nat) (evs : List DEv) : DState := runFrom (dinit fs) evs

/-- The chunks delivered by the source iterator over a trace, in delivery order. -/
def delivered (evs : List DEv) : List (List Nat) :=
  evs.filterMap fun e =>
    match e with
    | DEv.arrive c _ => some c
    | _ => none

/-- Is the event a `cleanup()` call? -/
def isCleanupE : DEv → Bool
  | DEv.cleanupEv => true
  | _ => false

/-- The injected-append-failure flag of an event. -/
def injOf : DEv → Bool
  | DEv.arrive _ inj => inj
  | DEv.updateend inj => inj
  | _ => false

/-- No `cleanup()` call occurs in the trace (the session is never aborted). -/
def noCleanup (evs : List DEv) : Bool := evs.all fun e => !isCleanupE e

/-- No environment-injected synchronous `appendBuffer` failure occurs in the trace. -/
def noInjected (evs : List DEv) : Bool := evs.all fun e => !injOf e

/-- Which events the environment can actually deliver in a state: chunk arrivals and loop
completion only while the download loop runs, `updateend` only for an outstanding append,
`sourceopen` only on the initial attach. -/
def okEv (s : DState) : DEv → Bool
  | DEv.arrive _ _ => !s.downloadComplete
  | DEv.downloadDone => !s.downloadComplete
  | DEv.updateend _ => s.bufUpdating
  | DEv.sourceOpen => decide (s.msReady = MSReady.closed)
  | DEv.finalizeCheck => true
  | DEv.cleanupEv => true

/-- A trace of events deliverable by the environment from a given state. -/
def validFrom (s : DState) : List DEv → Bool
  | [] => true
  | e :: rest => okEv s e && validFrom (dstep s e) rest

example : (runD 0 [DEv.sourceOpen, DEv.arrive [1, 2] false, DEv.updateend false,
    DEv.arrive [3] false, DEv.updateend false, DEv.downloadDone]).appended
    = [[1, 2], [3]] := by decide

example : (runD 0 [DEv.sourceOpen, DEv.arrive [1, 2] false, DEv.updateend false,
    DEv.arrive [3] false, DEv.updateend false, DEv.downloadDone]).eosLog
    = [EOSMark.finalized] := by decide

/-! ### Basic lemmas about the downloader machine -/

theorem processQueue_badCalls (inj : Bool) (s : DState) :
    (processQueue inj s).badCalls = s.badCalls := by
  unfold processQueue
  repeat' split
  all_goals simp_all

theorem processQueue_aborted (inj : Bool) (s : DState) (h : s.isAborted = true) :
    processQueue inj s = s := by
  unfold processQueue
  simp [h]

theorem processQueue_sublist (inj : Bool) (s : DState) :
    List.Sublist ((processQueue inj s).appended ++ (processQueue inj s).chunks)
      (s.appended ++ s.chunks) := by
  unfold processQueue
  split
  · exact List.Sublist.refl _
  split
  · exact List.Sublist.refl _
  split
  · exact List.Sublist.refl _
  next c rest heq =>
    rw [heq]
    repeat' split
    all_goals
      first
        | exact List.Sublist.append_left (List.sublist_cons_self c rest) _
        | (have h : (s.appended ++ [c]) ++ rest = s.appended ++ c :: rest := by simp
           exact h ▸ List.Sublist.refl _)

theorem dstep_badCalls (s : DState) (e : DEv) :
    (dstep s e).badCalls = s.badCalls := by
  cases e <;>
    simp only [dstep, finalizeStream, tryEndOfStream, cleanupD] <;>
    (repeat' split) <;>
    simp_all [processQueue_badCalls]

theorem finalizeStream_of_aborted (s : DState) (h : s.isAborted = true) :
    finalizeStream s = s := by
  unfold finalizeStream tryEndOfStream
  repeat' split
  all_goals simp_all

theorem dstep_of_aborted (s : DState) (e : DEv) (h : s.isAborted = true) :
    (dstep s e).isAborted = true ∧ (dstep s e).appended = s.appended ∧
      (dstep s e).eosLog.count EOSMark.finalized = s.eosLog.count EOSMark.finalized := by
  cases e with
  | sourceOpen =>
      simp only [dstep]
      split <;> simp [h]
  | arrive c inj => simp [dstep, h]
  | updateend inj =>
      simp only [dstep]
      rw [processQueue_aborted inj _ (by simp [h])]
      simp [h]
  | downloadDone => simp [dstep, h]
  | finalizeCheck => simp [dstep, finalizeStream_of_aborted s h, h]
  | cleanupEv =>
      simp only [dstep, cleanupD, tryEndOfStream]
      repeat' split
      all_goals simp_all [List.count_append]
      all_goals decide

/-- **C4.** The Buffer Feeder never issues an `appendBuffer` call while a previous append
for the same session is still outstanding: over every event trace whatsoever, the count of
`appendBuffer` invocations issued while `SourceBuffer.updating` was still true is zero
(`processQueue` returns early both when `isAppending` is set and when the buffer reports
`updating`, and `isAppending` is set before each append and cleared only by the
`updateend` listener or the synchronous catch clause). -/
theorem c4_no_second_append_while_outstanding (fs : Nat) (evs : List DEv) :
    (runD fs evs).badCalls = 0 := by
  suffices h : ∀ (l : List DEv) (s : DState), (runFrom s l).badCalls = s.badCalls by
    simpa [dinit] using h evs (dinit fs)
  intro l
  induction l with
  | nil => intro s; rfl
  | cons e rest ih =>
      intro s
      show (runFrom (dstep s e) rest).badCalls = s.badCalls
      rw [ih (dstep s e), dstep_badCalls]

/-- The ghost log of issued chunks, extended by the pending queue, only ever shrinks
(as a subsequence) relative to the chunks delivered so far. -/
theorem appended_chunks_sublist (evs : List DEv) (s : DState) :
    List.Sublist ((runFrom s evs).appended ++ (runFrom s evs).chunks)
      ((s.appended ++ s.chunks) ++ delivered evs) := by
  induction evs generalizing s with
  | nil => simp [runFrom, delivered]
  | cons e rest ih =>
      have hstep : List.Sublist ((dstep s e).appended ++ (dstep s e).chunks)
          ((s.appended ++ s.chunks) ++ (delivered [e])) := by
        cases e with
        | sourceOpen =>
            simp only [dstep, delivered, List.filterMap]
            split <;> simp
        | arrive c inj =>
            simp only [dstep]
            split
            · simp [delivered, List.filterMap]
            · split
              · simp [delivered, List.filterMap]
              · simp only [delivered, List.filterMap]
                split
                all_goals
                  refine List.Sublist.trans
                    (processQueue_sublist inj { s with chunks := s.chunks ++ [c] }) ?_
                  simp [List.append_assoc]
        | updateend inj =>
            simpa [delivered, List.filterMap] using
              processQueue_sublist inj { s with isAppending := false, bufUpdating := false }
        | downloadDone =>
            simp only [dstep, finalizeStream, tryEndOfStream, delivered, List.filterMap]
            repeat' split
            all_goals simp
        | finalizeCheck =>
            simp only [dstep, finalizeStream, tryEndOfStream, delivered, List.filterMap]
            repeat' split
            all_goals simp
        | cleanupEv =>
            simp only [dstep, cleanupD, tryEndOfStream, delivered, List.filterMap]
            repeat' split
            all_goals simp
      have htail := ih (dstep s e)
      have hall : List.Sublist
          ((runFrom (dstep s e) rest).appended ++ (runFrom (dstep s e) rest).chunks)
          (((s.appended ++ s.chunks) ++ delivered [e]) ++ delivered rest) :=
        htail.trans (List.Sublist.append_right hstep _)
      have hd : delivered (e :: rest) = delivered [e] ++ delivered rest := by
        cases e <;> simp [delivered]
      show List.Sublist
        ((runFrom (dstep s e) rest).appended ++ (runFrom (dstep s e) rest).chunks)
        ((s.appended ++ s.chunks) ++ delivered (e :: rest))
      rw [hd, ← List.append_assoc]
      exact hall

/-- **C10.** If `appendBuffer` throws synchronously during a drain, the dequeued chunk is
permanently discarded (neither appended nor re-queued), `isAppending` is cleared, the
session is not aborted and no end-of-stream is signalled, and the invocation does nothing
else (draining resumes only with the next `processQueue` call, i.e. the next enqueue or
`updateend`).  Consequently over any trace the chunks issued to the buffer form an
order-preserving subsequence of the delivered chunks — and a strict one is reachable. -/
theorem c10_sync_append_failure_drops_chunk :
    (∀ (s : DState) (c : List Nat) (rest : List (List Nat)),
        s.chunks = c :: rest → s.isAppending = false → s.hasSB = true →
        s.isAborted = false → s.bufUpdating = false → s.msReady = MSReady.opened →
        processQueue true s = { s with chunks := rest }) ∧
    (∀ (fs : Nat) (evs : List DEv), List.Sublist (runD fs evs).appended (delivered evs)) ∧
    ((runD 0 [DEv.sourceOpen, DEv.arrive [1] true]).appended = [] ∧
      delivered [DEv.sourceOpen, DEv.arrive [1] true] = [[1]]) := by
  refine ⟨?_, ?_, by decide, by decide⟩
  · intro s c rest hc ha hsb hab hbu hms
    unfold processQueue
    rw [hc]
    simp [ha, hsb, hab, hbu, hms]
  · intro fs evs
    have h := appended_chunks_sublist evs (dinit fs)
    simp only [dinit, List.append_nil, List.nil_append] at h
    exact (List.sublist_append_left _ _).trans h

/-- Witness for the hypotheses of the C10 theorem: a concrete mid-drain state on which the
failed append drops exactly the dequeued chunk. -/
theorem c10_sync_append_failure_drops_chunk_witness :
    processQueue true
        { msReady := MSReady.opened, hasSB := true, chunks := [[7], [8]],
          isAppending := false, bufUpdating := false, downloadComplete := false,
          isAborted := false, fileSize := 0, totalDownloaded := 1, appended := [[5]],
          eosLog := [], progressLog := [], badCalls := 0 }
      = { msReady := MSReady.opened, hasSB := true, chunks := [[8]],
          isAppending := false, bufUpdating := false, downloadComplete := false,
          isAborted := false, fileSize := 0, totalDownloaded := 1, appended := [[5]],
          eosLog := [], progressLog := [], badCalls := 0 } :=
  c10_sync_append_failure_drops_chunk.1 _ [7] [[8]] rfl rfl rfl rfl rfl rfl

/-- **C3.** Once a session is aborted it stays aborted (`isAborted` is only ever set, so
the transition to aborted happens at most once), and from an aborted state no event —
including chunks still arriving from the source iterator — ever issues another
`appendBuffer` call or signals finalization (`finalizeStream`-path `endOfStream`). -/
theorem c3_abort_is_permanent_and_silences (s : DState) (evs : List DEv)
    (h : s.isAborted = true) :
    (runFrom s evs).isAborted = true ∧
    (runFrom s evs).appended = s.appended ∧
    (runFrom s evs).eosLog.count EOSMark.finalized = s.eosLog.count EOSMark.finalized := by
  induction evs generalizing s with
  | nil => exact ⟨h, rfl, rfl⟩
  | cons e rest ih =>
      obtain ⟨h1, h2, h3⟩ := dstep_of_aborted s e h
      obtain ⟨g1, g2, g3⟩ := ih (dstep s e) h1
      exact ⟨g1, g2.trans h2, g3.trans h3⟩

/-- Witness for C3: an aborted session (cleaned up mid-feed with one chunk appended and
one still arriving later) ignores a late chunk, a late loop completion and a late
finalize recheck. -/
theorem c3_abort_is_permanent_and_silences_witness :
    (runFrom (runD 0 [DEv.sourceOpen, DEv.arrive [1] false, DEv.cleanupEv])
        [DEv.arrive [2] false, DEv.downloadDone, DEv.finalizeCheck]).isAborted = true ∧
    (runFrom (runD 0 [DEv.sourceOpen, DEv.arrive [1] false, DEv.cleanupEv])
        [DEv.arrive [2] false, DEv.downloadDone, DEv.finalizeCheck]).appended
      = (runD 0 [DEv.sourceOpen, DEv.arrive [1] false, DEv.cleanupEv]).appended ∧
    (runFrom (runD 0 [DEv.sourceOpen, DEv.arrive [1] false, DEv.cleanupEv])
        [DEv.arrive [2] false, DEv.downloadDone, DEv.finalizeCheck]).eosLog.count
        EOSMark.finalized
      = (runD 0 [DEv.sourceOpen, DEv.arrive [1] false, DEv.cleanupEv]).eosLog.count
        EOSMark.finalized :=
  c3_abort_is_permanent_and_silences _ _ (by decide)

/-! ### C1: exact FIFO delivery on clean runs -/

/-- Machine invariant for clean (never-aborted) runs: the downloader's `isAppending` flag
mirrors the buffer's `updating` flag, a SourceBuffer only exists once the source opened,
and the source is only `ended` after a completed download with a drained queue. -/
def FeederInv (s : DState) : Prop :=
  s.isAppending = s.bufUpdating ∧
  (s.hasSB = true → s.msReady ≠ MSReady.closed) ∧
  (s.msReady = MSReady.ended → s.downloadComplete = true ∧ s.chunks = []) ∧
  s.isAborted = false

theorem processQueue_false_cases (s : DState)
    (h2 : s.hasSB = true → s.msReady ≠ MSReady.closed)
    (h3 : s.msReady = MSReady.ended → s.chunks = []) :
    processQueue false s = s ∨
    ∃ c rest, s.chunks = c :: rest ∧ s.isAppending = false ∧ s.bufUpdating = false ∧
      processQueue false s =
        { s with chunks := rest, isAppending := true, bufUpdating := true,
                 appended := s.appended ++ [c] } := by
  unfold processQueue
  split
  · exact Or.inl rfl
  next hguard =>
    simp only [not_or] at hguard
    obtain ⟨ha, hsb, hch, hab⟩ := hguard
    split
    · exact Or.inl rfl
    next hbu =>
      split
      · exact Or.inl rfl
      next c rest heq =>
        have hms : s.msReady = MSReady.opened := by
          cases hm : s.msReady with
          | closed =>
              exact absurd hm (h2 (by revert hsb; cases s.hasSB <;> simp))
          | opened => rfl
          | ended => exact absurd (h3 hm) (by simp [heq])
        refine Or.inr ⟨c, rest, heq, ?_, ?_, ?_⟩
        · revert ha; cases s.isAppending <;> simp
        · revert hbu; cases s.bufUpdating <;> simp
        · rw [if_neg (by simp [hms])]

theorem finalizeStream_fields (x : DState) :
    (finalizeStream x).appended = x.appended ∧ (finalizeStream x).chunks = x.chunks ∧
    (finalizeStream x).isAppending = x.isAppending ∧
    (finalizeStream x).bufUpdating = x.bufUpdating ∧
    (finalizeStream x).hasSB = x.hasSB ∧ (finalizeStream x).isAborted = x.isAborted ∧
    (finalizeStream x).downloadComplete = x.downloadComplete ∧
    ((finalizeStream x).msReady = x.msReady ∨
      ((finalizeStream x).msReady = MSReady.ended ∧ x.downloadComplete = true ∧
        x.chunks = [] ∧ x.isAppending = false)) := by
  unfold finalizeStream tryEndOfStream
  repeat' split
  all_goals simp_all

theorem dstep_c1 (s : DState) (e : DEv) (hI : FeederInv s) (hok : okEv s e = true)
    (hcl : isCleanupE e = false) (hinj : injOf e = false) :
    FeederInv (dstep s e) ∧
    (dstep s e).appended ++ (dstep s e).chunks
      = (s.appended ++ s.chunks) ++ ((delivered [e]).filter fun c => decide (c ≠ [])) := by
  obtain ⟨i1, i2, i3, i4⟩ := hI
  cases e with
  | sourceOpen =>
      have hms : s.msReady = MSReady.closed := by simpa [okEv] using hok
      rw [dstep, if_pos hms]
      exact ⟨⟨i1, by simp, by simp, i4⟩, by simp [delivered]⟩
  | arrive c inj =>
      have hdc : s.downloadComplete = false := by
        revert hok; simp only [okEv]; cases s.downloadComplete <;> simp
      have hj : inj = false := by simpa [injOf] using hinj
      subst hj
      rw [dstep, if_neg (by simp [i4])]
      by_cases hc : c = []
      · rw [if_pos hc]
        exact ⟨⟨i1, i2, i3, i4⟩, by simp [delivered, hc]⟩
      · rw [if_neg hc]
        set spush : DState := { s with chunks := s.chunks ++ [c] } with hspush
        have hne : s.msReady ≠ MSReady.ended := fun hm => by
          rw [(i3 hm).1] at hdc; exact Bool.true_eq_false.mp hdc
        have hcases := processQueue_false_cases spush (by simpa [hspush] using i2)
          (fun hm => absurd hm hne)
        have hlists : (processQueue false spush).appended ++ (processQueue false spush).chunks
            = s.appended ++ (s.chunks ++ [c]) := by
          rcases hcases with hskip | ⟨c', rest', hch, _, _, hres⟩
          · rw [hskip]
          · rw [hres]
            simp only [hspush] at hch ⊢
            rw [hch]
            simp
        have hInv1 : FeederInv (processQueue false spush) := by
          rcases hcases with hskip | ⟨c', rest', hch, _, _, hres⟩
          · rw [hskip]
            exact ⟨i1, i2, fun hm => absurd hm hne, i4⟩
          · rw [hres]
            exact ⟨rfl, i2, fun hm => absurd hm hne, i4⟩
        refine ⟨?_, ?_⟩
        · dsimp only
          split
          · exact ⟨hInv1.1, hInv1.2.1, hInv1.2.2.1, hInv1.2.2.2⟩
          · exact ⟨hInv1.1, hInv1.2.1, hInv1.2.2.1, hInv1.2.2.2⟩
        · dsimp only
          split
          all_goals simpa [delivered, hc, List.append_assoc] using hlists
  | updateend inj =>
      have hj : inj = false := by simpa [injOf] using hinj
      subst hj
      have hbu : s.bufUpdating = true := by simpa [okEv] using hok
      rw [dstep]
      set sr : DState := { s with isAppending := false, bufUpdating := false } with hsr
      have hcases := processQueue_false_cases sr (by simpa [hsr] using i2)
        (fun hm => (i3 hm).2)
      have hlists : (processQueue false sr).appended ++ (processQueue false sr).chunks
          = s.appended ++ s.chunks := by
        rcases hcases with hskip | ⟨c', rest', hch, _, _, hres⟩
        · rw [hskip]
        · rw [hres]
          simp only [hsr] at hch ⊢
          rw [hch]
          simp
      have hInv1 : FeederInv (processQueue false sr) := by
        rcases hcases with hskip | ⟨c', rest', hch, _, _, hres⟩
        · rw [hskip]
          exact ⟨rfl, i2, fun hm => ⟨(i3 hm).1, (i3 hm).2⟩, i4⟩
        · rw [hres]
          refine ⟨rfl, i2, fun hm => ?_, i4⟩
          have := (i3 hm).2
          simp only [hsr] at hch
          rw [this] at hch
          exact absurd hch (by simp)
      exact ⟨hInv1, by simpa [delivered] using hlists⟩
  | downloadDone =>
      rw [dstep, if_neg (by simp [i4])]
      set sd : DState := { s with downloadComplete := true } with hsd
      obtain ⟨f1, f2, f3, f4, f5, f6, f7, f8⟩ := finalizeStream_fields sd
      refine ⟨⟨?_, ?_, ?_, ?_⟩, ?_⟩
      · rw [f3, f4]; exact i1
      · rw [f5]
        intro hh
        rcases f8 with h8 | h8
        · rw [h8]; exact i2 hh
        · rw [h8.1]; simp
      · intro hm
        refine ⟨by rw [f7], ?_⟩
        rcases f8 with h8 | h8
        · rw [f2]
          exact (i3 (by rw [← h8]; exact hm)).2
        · rw [f2]; exact h8.2.2.1
      · rw [f6]; exact i4
      · rw [f1, f2]; simp [delivered]
  | finalizeCheck =>
      rw [dstep]
      obtain ⟨f1, f2, f3, f4, f5, f6, f7, f8⟩ := finalizeStream_fields s
      refine ⟨⟨?_, ?_, ?_, ?_⟩, ?_⟩
      · rw [f3, f4]; exact i1
      · rw [f5]
        intro hh
        rcases f8 with h8 | h8
        · rw [h8]; exact i2 hh
        · rw [h8.1]; simp
      · intro hm
        rcases f8 with h8 | h8
        · have := i3 (by rw [← h8]; exact hm)
          exact ⟨by rw [f7]; exact this.1, by rw [f2]; exact this.2⟩
        · exact ⟨by rw [f7]; exact h8.2.1, by rw [f2]; exact h8.2.2.1⟩
      · rw [f6]; exact i4
      · rw [f1, f2]; simp [delivered]
  | cleanupEv => exact absurd hcl (by simp [isCleanupE])

theorem c1_invariant (evs : List DEv) :
    ∀ s : DState, FeederInv s → validFrom s evs = true → noCleanup evs = true →
      noInjected evs = true →
      FeederInv (runFrom s evs) ∧
      (runFrom s evs).appended ++ (runFrom s evs).chunks
        = (s.appended ++ s.chunks) ++ ((delivered evs).filter fun c => decide (c ≠ [])) := by
  induction evs with
  | nil =>
      intro s hI _ _ _
      exact ⟨hI, by simp [runFrom, delivered]⟩
  | cons e rest ih =>
      intro s hI hv hnc hni
      have hv' : okEv s e = true ∧ validFrom (dstep s e) rest = true := by
        simpa [validFrom, Bool.and_eq_true] using hv
      have hnc' : isCleanupE e = false ∧ noCleanup rest = true := by
        have := hnc
        simp only [noCleanup, List.all_cons, Bool.and_eq_true] at this
        exact ⟨by revert this; cases isCleanupE e <;> simp, by
          simpa [noCleanup] using this.2⟩
      have hni' : injOf e = false ∧ noInjected rest = true := by
        have := hni
        simp only [noInjected, List.all_cons, Bool.and_eq_true] at this
        exact ⟨by revert this; cases injOf e <;> simp, by
          simpa [noInjected] using this.2⟩
      obtain ⟨hIe, hLe⟩ := dstep_c1 s e hI hv'.1 hnc'.1 hni'.1
      obtain ⟨hIr, hLr⟩ := ih (dstep s e) hIe hv'.2 hnc'.2 hni'.2
      refine ⟨hIr, ?_⟩
      show (runFrom (dstep s e) rest).appended ++ (runFrom (dstep s e) rest).chunks = _
      rw [hLr, hLe]
      have hd : delivered (e :: rest) = delivered [e] ++ delivered rest := by
        cases e <;> simp [delivered]
      rw [hd, List.filter_append, List.append_assoc]

/-- Concatenating the nonempty chunks concatenates all chunks. -/
theorem flatten_filter_ne_nil (l : List (List Nat)) :
    ((l.filter fun c => decide (c ≠ [])).flatten) = l.flatten := by
  induction l with
  | nil => rfl
  | cons c rest ih =>
      rw [List.filter_cons]
      by_cases hc : c = []
      · rw [if_neg (by simp [hc]), ih, hc]
        simp only [List.flatten_cons, List.nil_append]
      · rw [if_pos (by simp [hc])]
        simp only [List.flatten_cons, ih]

/-- **C1.** For every environment-deliverable trace in which the session is never aborted
and no synchronous `appendBuffer` failure is injected, once the pending queue has drained,
the chunks issued to the playback buffer via `appendBuffer` are exactly the nonempty
delivered chunks in delivery order, and the issued bytes equal the concatenation of all
delivered chunks — no chunk out of order, duplicated, or skipped. -/
theorem c1_fifo_exact_delivery (fs : Nat) (evs : List DEv)
    (hv : validFrom (dinit fs) evs = true)
    (hnc : noCleanup evs = true)
    (hni : noInjected evs = true)
    (hflush : (runD fs evs).chunks = []) :
    (runD fs evs).appended = ((delivered evs).filter fun c => decide (c ≠ [])) ∧
    (runD fs evs).appended.flatten = (delivered evs).flatten := by
  have hInit : FeederInv (dinit fs) := by
    refine ⟨rfl, ?_, ?_, rfl⟩ <;> simp [dinit]
  obtain ⟨_, hEq⟩ := c1_invariant evs (dinit fs) hInit hv hnc hni
  rw [show runFrom (dinit fs) evs = runD fs evs from rfl, hflush] at hEq
  simp only [dinit, List.append_nil, List.nil_append] at hEq
  exact ⟨hEq, by rw [hEq, flatten_filter_ne_nil]⟩

/-- Witness for C1: a complete three-chunk session (one empty chunk delivered in the
middle) whose appended bytes are exactly the delivered bytes. -/
theorem c1_fifo_exact_delivery_witness :
    (runD 0 [DEv.sourceOpen, DEv.arrive [1, 2] false, DEv.updateend false,
        DEv.arrive [] false, DEv.arrive [3] false, DEv.updateend false,
        DEv.downloadDone]).appended
      = ((delivered [DEv.sourceOpen, DEv.arrive [1, 2] false, DEv.updateend false,
          DEv.arrive [] false, DEv.arrive [3] false, DEv.updateend false,
          DEv.downloadDone]).filter fun c => decide (c ≠ [])) ∧
    (runD 0 [DEv.sourceOpen, DEv.arrive [1, 2] false, DEv.updateend false,
        DEv.arrive [] false, DEv.arrive [3] false, DEv.updateend false,
        DEv.downloadDone]).appended.flatten
      = (delivered [DEv.sourceOpen, DEv.arrive [1, 2] false, DEv.updateend false,
          DEv.arrive [] false, DEv.arrive [3] false, DEv.updateend false,
          DEv.downloadDone]).flatten :=
  c1_fifo_exact_delivery 0 _ (by decide) (by decide) (by decide) (by decide)

/-! ### C2: when is end-of-stream signalled -/

theorem processQueue_eosLog (inj : Bool) (s : DState) :
    (processQueue inj s).eosLog = s.eosLog := by
  unfold processQueue
  repeat' split
  all_goals simp_all

/-- **C2 (amended).** Exact characterization of every `endOfStream` signal.  The
`finalizeStream` recheck signals end-of-stream iff `downloadComplete` is true, the pending
queue is empty and `isAppending` is false — **and additionally** the MediaSource is still
open, the session is not aborted and the buffer is not mid-update; the end of the download
loop signals under the same conditions (with `downloadComplete` being set by it); and
`cleanup()` signals end-of-stream whenever the MediaSource is open and the buffer is not
mid-update, regardless of the queue.  No other event signals. -/
theorem c2_eos_signal_characterization (s : DState) (c : List Nat) (i : Bool) :
    ((dstep s DEv.finalizeCheck).eosLog = s.eosLog ++ [EOSMark.finalized] ↔
      (s.downloadComplete = true ∧ s.chunks = [] ∧ s.isAppending = false ∧
        s.msReady = MSReady.opened ∧ s.isAborted = false ∧ s.bufUpdating = false)) ∧
    ((dstep s DEv.downloadDone).eosLog = s.eosLog ++ [EOSMark.finalized] ↔
      (s.chunks = [] ∧ s.isAppending = false ∧
        s.msReady = MSReady.opened ∧ s.isAborted = false ∧ s.bufUpdating = false)) ∧
    ((dstep s DEv.cleanupEv).eosLog = s.eosLog ++ [EOSMark.abortEos] ↔
      (s.msReady = MSReady.opened ∧ s.bufUpdating = false)) ∧
    (dstep s DEv.sourceOpen).eosLog = s.eosLog ∧
    (dstep s (DEv.arrive c i)).eosLog = s.eosLog ∧
    (dstep s (DEv.updateend i)).eosLog = s.eosLog := by
  refine ⟨?_, ?_, ?_, ?_, ?_, ?_⟩
  · simp only [dstep]
    unfold finalizeStream tryEndOfStream
    repeat' split
    all_goals simp_all
  · simp only [dstep]
    unfold finalizeStream tryEndOfStream
    repeat' split
    all_goals simp_all
  · simp only [dstep]
    unfold cleanupD tryEndOfStream
    by_cases h1 : s.msReady = MSReady.opened
    · by_cases h2 : s.bufUpdating = false
      · simp [h1, h2]
      · simp [h1, h2]
    · simp [h1]
  · simp only [dstep]
    split <;> rfl
  · simp only [dstep]
    repeat' split
    all_goals simp_all [processQueue_eosLog]
  · simp only [dstep, processQueue_eosLog]

/-- Counterexample to C2 as stated: after `[sourceOpen, arrive [1], arrive [2],
arrive [3], updateend(with a failed re-append)]` the session is in a state with a
non-empty pending queue (`[[3]]`) and `downloadComplete = false`, yet `cleanup()`
signals `endOfStream` to the buffer; conversely, after a bare `downloadDone` the
three conditions of the claim all hold, yet no end-of-stream has been signalled
(the MediaSource never opened). -/
theorem c2_counterexample :
    (validFrom (dinit 0) [DEv.sourceOpen, DEv.arrive [1] false, DEv.arrive [2] false,
        DEv.arrive [3] false, DEv.updateend true, DEv.cleanupEv] = true ∧
      (runD 0 [DEv.sourceOpen, DEv.arrive [1] false, DEv.arrive [2] false,
        DEv.arrive [3] false, DEv.updateend true]).chunks = [[3]] ∧
      (runD 0 [DEv.sourceOpen, DEv.arrive [1] false, DEv.arrive [2] false,
        DEv.arrive [3] false, DEv.updateend true]).downloadComplete = false ∧
      (dstep (runD 0 [DEv.sourceOpen, DEv.arrive [1] false, DEv.arrive [2] false,
        DEv.arrive [3] false, DEv.updateend true]) DEv.cleanupEv).eosLog
        = [EOSMark.abortEos]) ∧
    (validFrom (dinit 0) [DEv.downloadDone] = true ∧
      (runD 0 [DEv.downloadDone]).downloadComplete = true ∧
      (runD 0 [DEv.downloadDone]).chunks = [] ∧
      (runD 0 [DEv.downloadDone]).isAppending = false ∧
      (runD 0 [DEv.downloadDone]).eosLog = []) := by
  decide

/-! ### C6: progress reporting -/

/-- The per-chunk progress reporting of the gramjs variant's `downloadInChunks`
(unnamed source file, lines 146-170): empty chunks are skipped, `totalDownloaded`
accumulates, and `onProgress((totalDownloaded / fileSize) * 100)` is invoked with **no**
guard on `fileSize`. -/
def gramProgressLoop (fileSize total : Nat) : List (List Nat) → List ℚ
  | [] => []
  | c :: rest =>
      if c = [] then gramProgressLoop fileSize total rest
      else
        progressValue (total + c.length) fileSize ::
          gramProgressLoop fileSize (total + c.length) rest

/-- The sequence of progress-callback values produced by the gramjs variant for a given
metadata file size and chunk sequence. -/
def gramProgressCalls (fileSize : Nat) (chunks : List (List Nat)) : List ℚ :=
  gramProgressLoop fileSize 0 chunks

theorem progressValue_nonneg (total fs : Nat) : 0 ≤ progressValue total fs := by
  unfold progressValue
  positivity

theorem progressValue_mono (fs : Nat) {t t' : Nat} (h : t ≤ t') :
    progressValue t fs ≤ progressValue t' fs := by
  unfold progressValue
  rcases Nat.eq_zero_or_pos fs with hfs | hfs
  · subst hfs
    simp
  · have hc : (0 : ℚ) < (fs : ℚ) := by exact_mod_cast hfs
    have hdiv : (t : ℚ) / (fs : ℚ) ≤ (t' : ℚ) / (fs : ℚ) := by
      apply div_le_div_of_nonneg_right ?_ hc.le
      exact_mod_cast h
    exact mul_le_mul_of_nonneg_right hdiv (by norm_num)

theorem progressValue_le_100 {total fs : Nat} (h : total ≤ fs) :
    progressValue total fs ≤ 100 := by
  unfold progressValue
  rcases Nat.eq_zero_or_pos fs with hfs | hfs
  · subst hfs
    simp
  · have hc : (0 : ℚ) < (fs : ℚ) := by exact_mod_cast hfs
    have hdiv : (total : ℚ) / (fs : ℚ) ≤ 1 := by
      rw [div_le_one hc]
      exact_mod_cast h
    calc (total : ℚ) / (fs : ℚ) * 100 ≤ 1 * 100 :=
          mul_le_mul_of_nonneg_right hdiv (by norm_num)
      _ = 100 := by norm_num

theorem chain_le_append_singleton {l : List ℚ} {v : ℚ}
    (hc : List.Chain' (· ≤ ·) l) (hb : ∀ x ∈ l, x ≤ v) :
    List.Chain' (· ≤ ·) (l ++ [v]) := by
  rw [List.chain'_append]
  refine ⟨hc, List.chain'_singleton v, ?_⟩
  intro x hx y hy
  simp only [List.head?_cons, Option.mem_def, Option.some.injEq] at hy
  subst hy
  exact hb x (List.mem_of_mem_getLast? hx)

/-- Invariant of the mtcute machine's progress log: it is a non-decreasing sequence of
nonnegative values, all bounded by the current progress value, and empty while
`fileSize = 0`. -/
def ProgInv (s : DState) : Prop :=
  List.Chain' (· ≤ ·) s.progressLog ∧
  (∀ v ∈ s.progressLog, 0 ≤ v ∧ v ≤ progressValue s.totalDownloaded s.fileSize) ∧
  (s.fileSize = 0 → s.progressLog = [])

theorem processQueue_progress (inj : Bool) (s : DState) :
    (processQueue inj s).progressLog = s.progressLog ∧
    (processQueue inj s).totalDownloaded = s.totalDownloaded ∧
    (processQueue inj s).fileSize = s.fileSize := by
  unfold processQueue
  repeat' split
  all_goals simp_all

theorem progInv_congr {x y : DState} (h1 : y.progressLog = x.progressLog)
    (h2 : y.totalDownloaded = x.totalDownloaded) (h3 : y.fileSize = x.fileSize)
    (hx : ProgInv x) : ProgInv y := by
  obtain ⟨p1, p2, p3⟩ := hx
  refine ⟨h1 ▸ p1, ?_, ?_⟩
  · intro v hv
    rw [h1] at hv
    rw [h2, h3]
    exact p2 v hv
  · intro h0
    rw [h1]
    exact p3 (h3 ▸ h0)

theorem cleanupD_progress (s : DState) :
    (cleanupD s).progressLog = s.progressLog ∧
    (cleanupD s).totalDownloaded = s.totalDownloaded ∧
    (cleanupD s).fileSize = s.fileSize := by
  unfold cleanupD tryEndOfStream
  dsimp only
  split_ifs <;> simp_all

theorem finalizeStream_progress (x : DState) :
    (finalizeStream x).progressLog = x.progressLog ∧
    (finalizeStream x).totalDownloaded = x.totalDownloaded ∧
    (finalizeStream x).fileSize = x.fileSize := by
  unfold finalizeStream tryEndOfStream
  repeat' split
  all_goals simp_all

theorem dstep_progInv (s : DState) (e : DEv) (hI : ProgInv s) : ProgInv (dstep s e) := by
  obtain ⟨p1, p2, p3⟩ := hI
  cases e with
  | sourceOpen =>
      simp only [dstep]
      split
      · exact ⟨p1, p2, p3⟩
      · exact ⟨p1, p2, p3⟩
  | arrive c inj =>
      simp only [dstep]
      split
      · exact ⟨p1, p2, p3⟩
      split
      · exact ⟨p1, p2, p3⟩
      obtain ⟨q1, q2, q3⟩ := processQueue_progress inj { s with chunks := s.chunks ++ [c] }
      have q1' : (processQueue inj { s with chunks := s.chunks ++ [c] }).progressLog
          = s.progressLog := q1.trans rfl
      have q2' : (processQueue inj { s with chunks := s.chunks ++ [c] }).totalDownloaded
          = s.totalDownloaded := q2.trans rfl
      have q3' : (processQueue inj { s with chunks := s.chunks ++ [c] }).fileSize
          = s.fileSize := q3.trans rfl
      split
      next hpos =>
        have hpos' : 0 < s.fileSize := lt_of_lt_of_eq hpos q3'
        refine ⟨?_, ?_, ?_⟩ <;> dsimp only
        · rw [q1', q2', q3']
          refine chain_le_append_singleton p1 ?_
          intro x hx
          refine le_trans ((p2 x hx).2) ?_
          exact progressValue_mono _ (Nat.le_add_right _ _)
        · intro v hv
          rw [List.mem_append, q1'] at hv
          rcases hv with hv | hv
          · refine ⟨(p2 v hv).1, le_trans (p2 v hv).2 ?_⟩
            rw [q2', q3']
            exact progressValue_mono _ (Nat.le_add_right _ _)
          · rw [List.mem_singleton] at hv
            subst hv
            exact ⟨progressValue_nonneg _ _, le_refl _⟩
        · intro h0
          rw [q3'] at h0
          exact absurd h0 (by omega)
      next hpos =>
        have h0 : s.fileSize = 0 := by
          rw [q3'] at hpos
          omega
        have hlog : s.progressLog = [] := p3 h0
        refine ⟨?_, ?_, ?_⟩ <;> dsimp only
        · rw [q1', hlog]
          exact List.chain'_nil
        · intro v hv
          rw [q1', hlog] at hv
          exact absurd hv (List.not_mem_nil v)
        · intro _
          rw [q1', hlog]
  | updateend inj =>
      show ProgInv (processQueue inj { s with isAppending := false, bufUpdating := false })
      obtain ⟨q1, q2, q3⟩ :=
        processQueue_progress inj { s with isAppending := false, bufUpdating := false }
      exact progInv_congr (q1.trans rfl) (q2.trans rfl) (q3.trans rfl) ⟨p1, p2, p3⟩
  | downloadDone =>
      simp only [dstep]
      split
      · exact ⟨p1, p2, p3⟩
      obtain ⟨f1, f2, f3⟩ := finalizeStream_progress { s with downloadComplete := true }
      exact progInv_congr (f1.trans rfl) (f2.trans rfl) (f3.trans rfl) ⟨p1, p2, p3⟩
  | finalizeCheck =>
      show ProgInv (finalizeStream s)
      obtain ⟨f1, f2, f3⟩ := finalizeStream_progress s
      exact progInv_congr f1 f2 f3 ⟨p1, p2, p3⟩
  | cleanupEv =>
      show ProgInv (cleanupD s)
      obtain ⟨g1, g2, g3⟩ := cleanupD_progress s
      exact progInv_congr g1 g2 g3 ⟨p1, p2, p3⟩

theorem progInv_runD (fs : Nat) (evs : List DEv) : ProgInv (runD fs evs) := by
  suffices h : ∀ (l : List DEv) (s : DState), ProgInv s → ProgInv (runFrom s l) by
    refine h evs (dinit fs) ?_
    exact ⟨List.chain'_nil, by simp [dinit], fun _ => rfl⟩
  intro l
  induction l with
  | nil => intro s hI; exact hI
  | cons e rest ih => intro s hI; exact ih (dstep s e) (dstep_progInv s e hI)

theorem gramProgressLoop_length (fileSize : Nat) (chunks : List (List Nat)) :
    ∀ total, (gramProgressLoop fileSize total chunks).length
      = (chunks.filter fun c => decide (c ≠ [])).length := by
  induction chunks with
  | nil => intro total; rfl
  | cons c rest ih =>
      intro total
      rw [gramProgressLoop, List.filter_cons]
      by_cases hc : c = []
      · rw [if_pos hc, if_neg (by simp [hc])]
        exact ih total
      · rw [if_neg hc, if_pos (by simp [hc])]
        simp [ih]

/-- **C6 (amended).** In the mtcute variant (`src/src/utils/streamingDownload.ts`),
progress-callback values are non-decreasing and nonnegative, they are bounded by 100
whenever the delivered bytes do not exceed the known file size (the code computes
`(totalDownloaded / fileSize) * 100` without clamping), and no callback is ever invoked
while the file size is zero/unknown.  The gramjs variant invokes the callback once per
nonempty chunk regardless of the file size. -/
theorem c6_progress_reporting (fs : Nat) (evs : List DEv) :
    List.Chain' (· ≤ ·) (runD fs evs).progressLog ∧
    (∀ v ∈ (runD fs evs).progressLog, 0 ≤ v) ∧
    ((runD fs evs).totalDownloaded ≤ fs → ∀ v ∈ (runD fs evs).progressLog, v ≤ 100) ∧
    (fs = 0 → (runD fs evs).progressLog = []) ∧
    (∀ (gfs : Nat) (gchunks : List (List Nat)),
      (gramProgressCalls gfs gchunks).length
        = (gchunks.filter fun c => decide (c ≠ [])).length) := by
  obtain ⟨p1, p2, p3⟩ := progInv_runD fs evs
  have hfs : (runD fs evs).fileSize = fs := by
    suffices h : ∀ (l : List DEv) (s : DState), (runFrom s l).fileSize = s.fileSize by
      simpa [dinit] using h evs (dinit fs)
    intro l
    induction l with
    | nil => intro s; rfl
    | cons e rest ih =>
        intro s
        rw [show runFrom s (e :: rest) = runFrom (dstep s e) rest from rfl, ih]
        cases e <;> simp only [dstep, finalizeStream, tryEndOfStream, cleanupD] <;>
          (repeat' split) <;>
          simp_all [processQueue_progress]
  refine ⟨p1, fun v hv => (p2 v hv).1, ?_, fun h0 => p3 (by rw [hfs, h0]), ?_⟩
  · intro hle v hv
    refine le_trans (p2 v hv).2 ?_
    rw [hfs]
    exact progressValue_le_100 hle
  · intro gfs gchunks
    exact gramProgressLoop_length gfs gchunks 0

/-- Witness for C6 (amended), at the spec's own scenario — chunk sizes 10, 20, 15 with
total size 45: the values are non-decreasing and all at most 100. -/
theorem c6_progress_reporting_witness :
    (∀ v ∈ (runD 45 [DEv.sourceOpen, DEv.arrive (List.replicate 10 0) false,
        DEv.updateend false, DEv.arrive (List.replicate 20 0) false, DEv.updateend false,
        DEv.arrive (List.replicate 15 0) false, DEv.updateend false,
        DEv.downloadDone]).progressLog, v ≤ 100) ∧
    List.Chain' (· ≤ ·) (runD 45 [DEv.sourceOpen, DEv.arrive (List.replicate 10 0) false,
        DEv.updateend false, DEv.arrive (List.replicate 20 0) false, DEv.updateend false,
        DEv.arrive (List.replicate 15 0) false, DEv.updateend false,
        DEv.downloadDone]).progressLog :=
  ⟨(c6_progress_reporting 45 _).2.2.1 (by decide), (c6_progress_reporting 45 _).1⟩

/-- Counterexample to C6 as stated: the gramjs variant invokes the progress callback even
when the total size is zero (one call for one nonempty chunk with `fileSize = 0`), and
the mtcute variant's values are not clamped to 100 — delivering 11 bytes against a
recorded file size of 10 reports 110. -/
theorem c6_counterexample :
    (gramProgressCalls 0 [[1, 2, 3]]).length = 1 ∧
    (runD 10 [DEv.sourceOpen, DEv.arrive (List.replicate 11 1) false]).progressLog
      = [progressValue 11 10] ∧
    (100 : ℚ) < progressValue 11 10 := by
  refine ⟨rfl, rfl, ?_⟩
  rw [progressValue]
  norm_num

/-! ### C7: pre-flight codec negotiation (startStreaming, lines 23-40) -/

/-- The fixed fallback list of known-compatible types (lines 25-29); JS strings are
modelled as their character sequences. -/
def compatibleTypes : List (List Char) :=
  ["audio/mpeg".data, "audio/mp4; codecs=\"mp4a.40.2\"".data,
    "audio/webm; codecs=\"opus\"".data]

/-- `mimeType.split('/')[0]`: the primary type family. -/
def primaryFamily (mime : List Char) : List Char := mime.takeWhile (fun ch => ch ≠ '/')

/-- The rejection test of `startStreaming` (lines 24-39): reached only when the requested
type is unsupported; the method throws when additionally no entry of the fallback list
both starts with the requested primary family (`type.startsWith(...)`) and is supported,
and the type is not bare `audio/mp4` or `audio/webm`. -/
def codecRejected (support : List Char → Bool) (mime : List Char) : Bool :=
  if support mime then false
  else
    match compatibleTypes.find?
        (fun t => List.isPrefixOf (primaryFamily mime) t && support t) with
    | some _ => false
    | none =>
        if mime = "audio/mp4".data ∨ mime = "audio/webm".data then false else true

/-- `startStreaming` up to and including codec negotiation: when the check rejects, the
method throws before `URL.createObjectURL`, so no session machine is ever driven — in
particular no chunk is ever requested from the network. -/
def streamingAttempt (support : List Char → Bool) (mime : List Char) (fs : Nat)
    (evs : List DEv) : Option DState :=
  if codecRejected support mime then none else some (runD fs evs)

/-- **C7.** `startStreaming` fails with the unsupported-codec error exactly when the
requested MIME type is unsupported, no entry of the fixed fallback list of the same
primary type family is supported, and the type is not bare `audio/mp4` or `audio/webm`;
and in that case no network activity ever happens (no session state exists at all). -/
theorem c7_codec_rejection_is_preflight (support : List Char → Bool) (mime : List Char) :
    (codecRejected support mime = true ↔
      (support mime = false ∧
        (∀ t ∈ compatibleTypes,
          ¬(List.isPrefixOf (primaryFamily mime) t = true ∧ support t = true)) ∧
        mime ≠ "audio/mp4".data ∧ mime ≠ "audio/webm".data)) ∧
    (codecRejected support mime = true →
      ∀ (fs : Nat) (evs : List DEv), streamingAttempt support mime fs evs = none) := by
  constructor
  · unfold codecRejected
    by_cases hs : support mime
    · simp [hs]
    · rw [if_neg (by simp [hs])]
      rcases hf : compatibleTypes.find?
          (fun t => List.isPrefixOf (primaryFamily mime) t && support t) with _ | t
      · simp only [hf]
        rw [List.find?_eq_none] at hf
        by_cases hbare : mime = "audio/mp4".data ∨ mime = "audio/webm".data
        · simp only [if_pos hbare]
          constructor
          · intro h
            exact absurd h (by simp)
          · rintro ⟨-, -, h4, h5⟩
            rcases hbare with hb | hb
            · exact absurd hb h4
            · exact absurd hb h5
        · simp only [if_neg hbare]
          constructor
          · intro _
            refine ⟨by simpa using hs, ?_, ?_, ?_⟩
            · intro t ht hconj
              have := hf t ht
              simp only [Bool.and_eq_true] at this
              exact this ⟨hconj.1, hconj.2⟩
            · intro h
              exact hbare (Or.inl h)
            · intro h
              exact hbare (Or.inr h)
          · intro _
            trivial
      · simp only [hf]
        have hmem := List.mem_of_find?_eq_some hf
        have hpred := List.find?_some hf
        simp only [Bool.and_eq_true] at hpred
        constructor
        · intro h
          exact absurd h (by simp)
        · rintro ⟨-, hall, -, -⟩
          exact absurd ⟨hpred.1, hpred.2⟩ (hall t hmem)
  · intro h fs evs
    unfold streamingAttempt
    rw [if_pos h]

/-- Witness for C7: with a mechanism supporting nothing, a video MIME type is rejected
and no session runs. -/
theorem c7_codec_rejection_is_preflight_witness :
    streamingAttempt (fun _ => false) "video/x-matroska".data 3
      [DEv.sourceOpen, DEv.arrive [1] false] = none :=
  (c7_codec_rejection_is_preflight (fun _ => false) "video/x-matroska".data).2
    (by decide) 3 [DEv.sourceOpen, DEv.arrive [1] false]

/-! ## Player.tsx: playTrack and the track-transition state (C5, C9)

`playTrack` (Player.tsx lines 125-268) runs as a sequence of synchronous segments
separated by suspension points (the streaming download, the whole-file fallback, the
audio element's `canplay`/`error` events and the progress callbacks).  Each resumption
re-checks `loadingTrackIdRef.current === track.id` before touching state.  The state
machine below has one event per resumption; ghost fields record invoked stream cleanups,
started network downloads, and every `new Audio(url)` construction. -/

structure PState where
  currentTrack : Option String
  pendingTrack : Option String
  /-- `loadingTrackIdRef.current`. -/
  loadingTrackId : Option String
  isPlaying : Bool
  isBuffering : Bool
  loadingProgress : ℚ
  /-- Identity of `audioRef.current`. -/
  activeAudio : Option Nat
  /-- User-visible `alert(...)` messages, in order. -/
  alerts : List String
  /-- `trackCacheRef.current`: track id → object-URL identity. -/
  trackCache : List (String × Nat)
  /-- `cleanupRef.current`: the streaming session whose cleanup is pending. -/
  cleanupSlot : Option Nat
  /-- Ghost: streaming sessions whose `cleanup()` has been invoked. -/
  cleaned : List Nat
  /-- Ghost: network downloads started (streaming attempt or whole-file fallback). -/
  fetchesStarted : Nat
  /-- Ghost: each `new Audio(url)` as (audio identity, url identity). -/
  createdAudios : List (Nat × Nat)
deriving DecidableEq, Repr

/-- Resumption events of `playTrack` executions.  `request` is a user click (the
synchronous prefix of `playTrack`); `streamResolved` is `downloadAudioFileStreaming`
settling (`ok` = resolved, `¬ok` = threw); `fallbackResolved` is `downloadAudioFile`
settling; `canPlay` / `audioErr` are the new audio element's events; `progressEv` is a
progress callback.  Each carries the track id its closure captured. -/
inductive PEv where
  | request (track : String) (audioId : Nat)
  | streamResolved (track : String) (ok : Bool) (url sid audioId : Nat)
  | fallbackResolved (track : String) (ok : Bool) (url audioId : Nat)
  | canPlay (track : String) (audioId : Nat)
  | audioErr (track : String)
  | progressEv (track : String) (v : ℚ)
deriving DecidableEq, Repr

/-- Player.tsx lines 197-260: invoke and clear any previous `cleanupRef`, store the new
session's cleanup (when the url came from streaming), construct `new Audio(url)` and
register its handlers. -/
def commitAudioSetup (s : PState) (newCleanup : Option Nat) (u aid : Nat) : PState :=
  let s1 :=
    match s.cleanupSlot with
    | some old => { s with cleaned := s.cleaned ++ [old], cleanupSlot := none }
    | none => s
  let s2 :=
    match newCleanup with
    | some sid => { s1 with cleanupSlot := some sid }
    | none => s1
  { s2 with createdAudios := s2.createdAudios ++ [(aid, u)] }

/-- One resumption of `playTrack`, translated from Player.tsx. -/
def pstep (s : PState) : PEv → PState
  | PEv.request t aid =>
      -- lines 126-136: same-track toggle
      if s.currentTrack = some t ∧ s.activeAudio ≠ none then
        { s with isPlaying := !s.isPlaying }
      else
        -- lines 138-145
        let s1 := { s with pendingTrack := some t, loadingTrackId := some t,
                           loadingProgress := 0 }
        match s1.trackCache.lookup t with
        | some u =>
            -- lines 151-154 then 197-260, all synchronous: cached url, no download
            commitAudioSetup s1 none u aid
        | none =>
            -- line 160: begin the streaming download (suspends)
            { s1 with fetchesStarted := s1.fetchesStarted + 1 }
  | PEv.streamResolved t ok u sid aid =>
      if ok = true then
        -- lines 170-172 then the guard at 185-189
        if s.loadingTrackId ≠ some t then { s with cleaned := s.cleaned ++ [sid] }
        else
          -- streaming has a cleanup, so the cache is not populated (line 192)
          commitAudioSetup s (some sid) u aid
      else
        -- catch at 173: guard at 174, then start the fallback download (line 177)
        if s.loadingTrackId ≠ some t then s
        else { s with fetchesStarted := s.fetchesStarted + 1 }
  | PEv.fallbackResolved t ok u aid =>
      if ok = true then
        -- url = URL.createObjectURL(blob); guard at 185; cleanup is undefined
        if s.loadingTrackId ≠ some t then s
        else
          -- line 193: cache the url, then lines 197-260
          let s1 := { s with trackCache := (t, u) :: s.trackCache }
          commitAudioSetup s1 none u aid
      else
        -- outer catch at 262: guard at 263, then alert (line 266)
        if s.loadingTrackId ≠ some t then s
        else { s with pendingTrack := none,
                      alerts := s.alerts ++ ["Failed to play track"] }
  | PEv.canPlay t aid =>
      -- oncanplay at 211-247: guard at 213, cutover
      if s.loadingTrackId ≠ some t then s
      else { s with activeAudio := some aid, currentTrack := some t,
                    pendingTrack := none, isBuffering := false, isPlaying := true }
  | PEv.audioErr t =>
      -- onerror at 249-257: guard at 250
      if s.loadingTrackId ≠ some t then s
      else { s with pendingTrack := none,
                    alerts := s.alerts ++ ["Failed to load track"] }
  | PEv.progressEv t v =>
      -- progress callbacks at 164-168 and 177-181: guarded assignment
      if s.loadingTrackId = some t then { s with loadingProgress := v } else s

/-- Initial Player state (after mount, with the initial empty `Audio` element). -/
def pinit : PState :=
  { currentTrack := none, pendingTrack := none, loadingTrackId := none,
    isPlaying := false, isBuffering := false, loadingProgress := 0,
    activeAudio := some 0, alerts := [], trackCache := [], cleanupSlot := none,
    cleaned := [], fetchesStarted := 0, createdAudios := [] }

/-- Run a list of Player events from the initial state. -/
def runP (evs : List PEv) : PState := evs.foldl pstep pinit

/-- The externally observable playback state named by the claim: current track, active
audio element, loading progress, user-visible errors. -/
def observable (s : PState) : Option String × Option Nat × ℚ × List String :=
  (s.currentTrack, s.activeAudio, s.loadingProgress, s.alerts)

/-- The track a resumption event belongs to (`none` for a fresh user request). -/
def resolutionTrack : PEv → Option String
  | PEv.request _ _ => none
  | PEv.streamResolved t _ _ _ _ => some t
  | PEv.fallbackResolved t _ _ _ => some t
  | PEv.canPlay t _ => some t
  | PEv.audioErr t => some t
  | PEv.progressEv t _ => some t

theorem commitAudioSetup_fields (s : PState) (nc : Option Nat) (u aid : Nat) :
    (commitAudioSetup s nc u aid).trackCache = s.trackCache ∧
    (commitAudioSetup s nc u aid).fetchesStarted = s.fetchesStarted ∧
    (commitAudioSetup s nc u aid).createdAudios = s.createdAudios ++ [(aid, u)] ∧
    (commitAudioSetup s nc u aid).currentTrack = s.currentTrack ∧
    (commitAudioSetup s nc u aid).activeAudio = s.activeAudio ∧
    (commitAudioSetup s nc u aid).loadingProgress = s.loadingProgress ∧
    (commitAudioSetup s nc u aid).alerts = s.alerts := by
  unfold commitAudioSetup
  rcases s.cleanupSlot with _ | old <;> rcases nc with _ | sid <;> simp

/-- **C5 (amended).** Any resumption of a load for track `t` — stream resolution
(success or failure), fallback resolution (success or failure), `canplay`, `error`, or a
progress callback — leaves the observable playback state (current track, active audio
element, loading progress, user-visible errors) unchanged whenever `t` is not the most
recently requested track.  (Because the guard compares track ids rather than request
ids, this protection lapses if `t` is requested again: see the counterexample.) -/
theorem c5_stale_resolution_no_observable_effect (s : PState) (e : PEv) (t : String)
    (ht : resolutionTrack e = some t) (hstale : s.loadingTrackId ≠ some t) :
    observable (pstep s e) = observable s := by
  cases e with
  | request t' aid => exact absurd ht (by simp [resolutionTrack])
  | streamResolved t' ok u sid aid =>
      obtain rfl : t' = t := by simpa [resolutionTrack] using ht
      simp only [pstep]
      repeat' split
      all_goals rfl
  | fallbackResolved t' ok u aid =>
      obtain rfl : t' = t := by simpa [resolutionTrack] using ht
      simp only [pstep]
      repeat' split
      all_goals rfl
  | canPlay t' aid =>
      obtain rfl : t' = t := by simpa [resolutionTrack] using ht
      simp only [pstep]
      repeat' split
      all_goals rfl
  | audioErr t' =>
      obtain rfl : t' = t := by simpa [resolutionTrack] using ht
      simp only [pstep]
      repeat' split
      all_goals rfl
  | progressEv t' v =>
      obtain rfl : t' = t := by simpa [resolutionTrack] using ht
      simp only [pstep]
      repeat' split
      all_goals first
        | rfl
        | exact absurd (by assumption) hstale

/-- Witness for C5 (amended): while track B is the latest request, a successful stream
resolution for track A is observably a no-op. -/
theorem c5_stale_resolution_no_observable_effect_witness :
    observable (pstep (runP [PEv.request "A" 0, PEv.request "B" 1])
        (PEv.streamResolved "A" true 10 100 3))
      = observable (runP [PEv.request "A" 0, PEv.request "B" 1]) :=
  c5_stale_resolution_no_observable_effect _ _ "A" (by decide) (by decide)

/-- Counterexample to C5 as stated: request A, request B while A's load is in flight,
then request A again.  The first A-request's resolution (its stream settling and its
audio element's `canplay`) now passes the track-id guard and mutates the observable
playback state — after B had been requested. -/
theorem c5_counterexample :
    (runP [PEv.request "A" 0, PEv.request "B" 1, PEv.request "A" 2,
        PEv.streamResolved "A" true 10 100 3, PEv.canPlay "A" 3]).currentTrack
      = some "A" ∧
    (runP [PEv.request "A" 0, PEv.request "B" 1, PEv.request "A" 2]).currentTrack
      = none ∧
    observable (runP [PEv.request "A" 0, PEv.request "B" 1, PEv.request "A" 2,
        PEv.streamResolved "A" true 10 100 3, PEv.canPlay "A" 3])
      ≠ observable (runP [PEv.request "A" 0, PEv.request "B" 1, PEv.request "A" 2]) := by
  refine ⟨by decide, by decide, ?_⟩
  intro h
  have hfst := congrArg Prod.fst h
  rw [show (observable (runP [PEv.request "A" 0, PEv.request "B" 1, PEv.request "A" 2,
      PEv.streamResolved "A" true 10 100 3, PEv.canPlay "A" 3])).1 = some "A"
    from by decide] at hfst
  rw [show (observable (runP [PEv.request "A" 0, PEv.request "B" 1,
      PEv.request "A" 2])).1 = none from by decide] at hfst
  exact Option.noConfusion hfst

/-- **C9.** Caching policy of `playTrack`: no resumption of the streaming path (stream
resolution, canplay, error, progress, or a fresh request) ever writes the track cache; a
successful whole-file fallback for the still-current track caches the url under the
track id; and a later request for a cached track starts no new download and constructs
its audio element from the cached url. -/
theorem c9_cache_policy :
    (∀ (s : PState) (t : String) (ok : Bool) (u sid aid : Nat) (v : ℚ),
        (pstep s (PEv.streamResolved t ok u sid aid)).trackCache = s.trackCache ∧
        (pstep s (PEv.canPlay t aid)).trackCache = s.trackCache ∧
        (pstep s (PEv.audioErr t)).trackCache = s.trackCache ∧
        (pstep s (PEv.progressEv t v)).trackCache = s.trackCache ∧
        (pstep s (PEv.request t aid)).trackCache = s.trackCache) ∧
    (∀ (s : PState) (t : String) (u aid : Nat), s.loadingTrackId = some t →
        (pstep s (PEv.fallbackResolved t true u aid)).trackCache.lookup t = some u) ∧
    (∀ (s : PState) (t : String) (u aid : Nat),
        s.trackCache.lookup t = some u → s.currentTrack ≠ some t →
        (pstep s (PEv.request t aid)).fetchesStarted = s.fetchesStarted ∧
        (pstep s (PEv.request t aid)).createdAudios = s.createdAudios ++ [(aid, u)]) := by
  refine ⟨?_, ?_, ?_⟩
  · intro s t ok u sid aid v
    obtain ⟨hc, -, -, -, -, -, -⟩ := commitAudioSetup_fields s (some sid) u aid
    refine ⟨?_, ?_, ?_, ?_, ?_⟩
    · simp only [pstep]
      split
      · split
        · rfl
        · exact hc
      · split <;> rfl
    · simp only [pstep]
      split <;> rfl
    · simp only [pstep]
      split <;> rfl
    · simp only [pstep]
      split <;> rfl
    · simp only [pstep]
      split
      · rfl
      · split
        next u' heq => exact (commitAudioSetup_fields _ none u' aid).1
        next heq => rfl
  · intro s t u aid hcur
    simp only [pstep]
    split
    next =>
      split
      next hguard => exact absurd hcur hguard
      next hguard =>
        rw [(commitAudioSetup_fields _ none u aid).1]
        simp [List.lookup]
    next hfalse => exact absurd trivial hfalse
  · intro s t u aid hcache hcur
    simp only [pstep]
    split
    next hand => exact absurd hand.1 hcur
    next =>
      split
      next u' heq =>
        have h2 : s.trackCache.lookup t = some u' := heq
        rw [hcache] at h2
        obtain rfl : u = u' := Option.some.inj h2
        exact ⟨(commitAudioSetup_fields _ none u aid).2.1,
          (commitAudioSetup_fields _ none u aid).2.2.1⟩
      next heq =>
        have h2 : s.trackCache.lookup t = none := heq
        rw [hcache] at h2
        exact Option.noConfusion h2

/-- Witness for C9: a fallback success caches under the track id; replaying the cached
track starts no download and reuses the cached url; a streaming resolution leaves the
cache empty. -/
theorem c9_cache_policy_witness :
    (pstep { pinit with loadingTrackId := some "A" }
        (PEv.fallbackResolved "A" true 7 1)).trackCache.lookup "A" = some 7 ∧
    ((pstep { pinit with trackCache := [("A", 7)], currentTrack := some "B" }
        (PEv.request "A" 2)).fetchesStarted
      = ({ pinit with trackCache := [("A", 7)], currentTrack := some "B" }
          : PState).fetchesStarted ∧
      (pstep { pinit with trackCache := [("A", 7)], currentTrack := some "B" }
        (PEv.request "A" 2)).createdAudios
      = ({ pinit with trackCache := [("A", 7)], currentTrack := some "B" }
          : PState).createdAudios ++ [(2, 7)]) ∧
    (pstep pinit (PEv.streamResolved "A" true 10 100 3)).trackCache
      = pinit.trackCache :=
  ⟨c9_cache_policy.2.1 _ "A" 7 1 (by decide),
    c9_cache_policy.2.2 _ "A" 7 2 (by decide) (by decide),
    (c9_cache_policy.1 _ "A" true 10 100 3 0).1⟩

/-! ## Cross-context relay (sw.js and the relay-variant startStreaming) (C8)

The requesting context posts a `REGISTER_STREAM` message and returns `/stream/{id}`;
the service-worker context processes its incoming events (messages and fetches) in
arrival order, and nothing in the code constrains the relative arrival order of the
registration message and a fetch for the returned handle. -/

/-- A registration entry of the service worker's `map` (sw.js line 14). -/
structure SWReg where
  mimeType : List Char
  size : Nat
deriving DecidableEq, Repr

/-- The response headers produced by the fetch handler (sw.js lines 28-33). -/
structure SWResponse where
  contentType : List Char
  contentLength : Option Nat
  acceptRanges : Bool
deriving DecidableEq, Repr

/-- Events processed by the service-worker context. -/
inductive SWEv where
  | message (id : List Char) (reg : SWReg)
  | fetchReq (path : List Char)
deriving DecidableEq, Repr

/-- `'/stream/'` as characters. -/
def streamRoute : List Char := "/stream/".data

/-- Strip a route from the front of a path, if present. -/
def stripRoute : List Char → List Char → Option (List Char)
  | [], rest => some rest
  | _ :: _, [] => none
  | a :: as, b :: bs => if a = b then stripRoute as bs else none

/-- `url.pathname.startsWith('/stream/')` plus `pathname.split('/stream/')[1]`
(sw.js lines 21-22); stream ids (`Math.random().toString(36)`) contain no slash, so the
id is everything after the route. -/
def matchStreamPath (p : List Char) : Option (List Char) := stripRoute streamRoute p

/-- One service-worker event (sw.js lines 11-45): `REGISTER_STREAM` stores the entry
under its id; a `/stream/{id}` fetch that finds an entry responds with the registered
MIME type (default `audio/mpeg`), `Content-Length` when the size is truthy and
`Accept-Ranges: bytes`, and deletes the entry (consume-on-match); a fetch that finds no
entry produces no response. -/
def swStep (m : List (List Char × SWReg)) :
    SWEv → List (List Char × SWReg) × Option SWResponse
  | SWEv.message id reg => ((id, reg) :: m.filter (fun e => !(e.1 == id)), none)
  | SWEv.fetchReq path =>
      match matchStreamPath path with
      | none => (m, none)
      | some id =>
          match m.lookup id with
          | some reg =>
              (m.filter (fun e => !(e.1 == id)),
                some { contentType :=
                         if reg.mimeType = [] then "audio/mpeg".data else reg.mimeType,
                       contentLength := if reg.size ≠ 0 then some reg.size else none,
                       acceptRanges := true })
          | none => (m, none)

/-- Process a list of service-worker events, collecting the per-event responses. -/
def swRun (m : List (List Char × SWReg)) : List SWEv →
    List (List Char × SWReg) × List (Option SWResponse)
  | [] => (m, [])
  | e :: rest =>
      let mr := swStep m e
      let out := swRun mr.1 rest
      (out.1, mr.2 :: out.2)

/-- The relay-variant `startStreaming` (unnamed source file, lines 13-44): it generates
a stream id, posts the `REGISTER_STREAM` message via fire-and-forget `postMessage`, and
returns `/stream/{id}` immediately, without awaiting any acknowledgement that the
service worker processed the registration.  The result is the returned handle together
with the posted message. -/
def relayStart (sid mime : List Char) (size : Nat) : List Char × SWEv :=
  (streamRoute ++ sid, SWEv.message sid { mimeType := mime, size := size })

theorem stripRoute_append (r p : List Char) : stripRoute r (r ++ p) = some p := by
  induction r with
  | nil => rfl
  | cons a as ih => simp [stripRoute, ih]

/-- **C8 (amended).** `startStreaming` posts the registration message and returns the
`/stream/{id}` handle immediately, with no synchronization: *if* the service worker
processes the registration before the request addressed to the handle, the request finds
the entry, is served with the registered MIME type and size, and the entry is consumed;
but the code does not make the registration-first order a precondition of returning the
handle, so the opposite processing order finds no entry (see the counterexample). -/
theorem c8_registration_before_fetch_serves (sid mime : List Char) (size : Nat) :
    swRun [] [(relayStart sid mime size).2,
        SWEv.fetchReq (relayStart sid mime size).1] =
      ([], [none,
        some { contentType := if mime = [] then "audio/mpeg".data else mime,
               contentLength := if size ≠ 0 then some size else none,
               acceptRanges := true }]) := by
  simp [relayStart, swRun, swStep, matchStreamPath, stripRoute_append, List.lookup,
    List.filter]

/-- Counterexample to C8 as stated: both events exist only after `startStreaming`
returned the handle (the registration message is posted just before the return), yet if
the service worker processes the fetch before the registration message, the request
addressed to the returned handle finds no matching entry and gets no response. -/
theorem c8_counterexample :
    swRun [] [SWEv.fetchReq (relayStart "k3x9".data "audio/mpeg".data 1000).1,
        (relayStart "k3x9".data "audio/mpeg".data 1000).2] =
      ([("k3x9".data, { mimeType := "audio/mpeg".data, size := 1000 })],
        [none, none]) := by
  decide

end MusicTg
